import Mathlib

/-!
Verification of the article-to-audio conversion core.

Python strings are embedded as `List Char`; `len` is `List.length`,
slicing is `List.take`, and string methods (`strip`, `lower`, `split`,
`in`) are embedded as the executable functions below, faithful to the
CPython semantics actually exercised by the code (ASCII whitespace for
`strip`/`split`, exact-substring matching for `in`).
-/

/-- ASCII whitespace, the set stripped by Python str.strip / str.split
on the inputs this code handles. -/
def isSpace (c : Char) : Bool :=
  c == ' ' || c == '\t' || c == '\n' || c == '\r' || c == '\x0b' || c == '\x0c'

/-- Python str.lower, per character. -/
def toLowerL (l : List Char) : List Char := l.map Char.toLower

/-- Python str.strip(): remove leading and trailing whitespace. -/
def pyStrip (l : List Char) : List Char :=
  ((l.dropWhile isSpace).reverse.dropWhile isSpace).reverse

/-- Remove every whitespace character (used to state whitespace-insensitive
equalities between texts). -/
def removeWs (l : List Char) : List Char := l.filter (fun c => !isSpace c)

/-- Boolean test: the first list is a prefix of the second. -/
def isPref : List Char → List Char → Bool
  | [], _ => true
  | _ :: _, [] => false
  | a :: as, b :: bs => a == b && isPref as bs

/-- Python substring containment: `needle in hay`. -/
def containsSub (hay needle : List Char) : Bool :=
  if isPref needle hay then true
  else
    match hay with
    | [] => false
    | _ :: t => containsSub t needle

/-- Python `any(term in hay for term in terms)`. -/
def hasAny (hay : List Char) (terms : List (List Char)) : Bool :=
  terms.any (fun t => containsSub hay t)

/-! ## Text segmenter — `chunk_text` in simple-api.py

```python
def chunk_text(text, max_chunk_size=8000):
    sentences = text.split('. ')
    chunks = []
    current_chunk = ""
    for sentence in sentences:
        if len(current_chunk + sentence + '. ') <= max_chunk_size:
            current_chunk += sentence + '. '
        else:
            if current_chunk:
                chunks.append(current_chunk.strip())
            current_chunk = sentence + '. '
    if current_chunk:
        chunks.append(current_chunk.strip())
    return chunks
```
-/

/-- Prepend a character to the first piece of a split result. -/
def consHead (c : Char) : List (List Char) → List (List Char)
  | [] => [[c]]
  | s :: ss => (c :: s) :: ss

/-- Python `text.split('. ')`: split on the exact two-character separator,
leftmost occurrence first. -/
def pySplitDot : List Char → List (List Char)
  | [] => [[]]
  | [c] => [[c]]
  | c1 :: c2 :: rest =>
    if c1 = '.' ∧ c2 = ' ' then [] :: pySplitDot rest
    else consHead c1 (pySplitDot (c2 :: rest))

/-- Rejoin the pieces of a `'. '` split (inverse of `pySplitDot`). -/
def joinDotSep : List (List Char) → List Char
  | [] => []
  | [s] => s
  | s :: ss => s ++ '.' :: ' ' :: joinDotSep ss

/-- Join pieces, each followed by `'. '` — the shape the accumulator of
`chunk_text` takes after consuming the pieces. -/
def joinTrail : List (List Char) → List Char
  | [] => []
  | s :: ss => s ++ '.' :: ' ' :: joinTrail ss

/-- The sentence-accumulation loop of `chunk_text`: `current` is
`current_chunk`, `chunks` the accumulated output list. -/
def chunkGo (maxSize : Nat) : List (List Char) → List Char → List (List Char) → List (List Char)
  | [], current, chunks =>
    if current.isEmpty then chunks else chunks ++ [pyStrip current]
  | s :: rest, current, chunks =>
    if (current ++ s ++ '.' :: ' ' :: []).length ≤ maxSize then
      chunkGo maxSize rest (current ++ s ++ '.' :: ' ' :: []) chunks
    else
      chunkGo maxSize rest (s ++ '.' :: ' ' :: [])
        (if current.isEmpty then chunks else chunks ++ [pyStrip current])

/-- `chunk_text(text, max_chunk_size)` from simple-api.py. -/
def chunk_text (text : List Char) (maxSize : Nat) : List (List Char) :=
  chunkGo maxSize (pySplitDot text) [] []

/-! ## Long-content audio generation — `generate_edge_tts` in simple-api.py

```python
async def generate_edge_tts():
    if len(content) > 10000:
        chunks = chunk_text(content, 8000)
        all_audio = []
        for i, chunk in enumerate(chunks):
            ... synthesize chunk -> chunk_path ...
            all_audio.append(chunk_path)
        # Combine chunks using ffmpeg or just use first chunk for now
        # For simplicity, just use the first chunk
        shutil.move(all_audio[0], str(audio_path))
        for chunk_path in all_audio[1:]:
            os.remove(chunk_path)
    else:
        ... synthesize content -> audio_path ...
```

The synthesis engine is an external collaborator, abstracted as a function
from text to audio bytes. The first result component is the audio that ends
up at `audio_path` (the final artifact), the second the per-segment audio
blobs in the order they were synthesized. -/
def generate_edge_tts (synth : List Char → List Nat) (content : List Char) :
    Option (List Nat) × List (List Nat) :=
  if content.length > 10000 then
    let chunks := chunk_text content 8000
    let all_audio := chunks.map synth
    (all_audio.head?, all_audio)
  else
    (some (synth content), [synth content])

/-! ## Timeout fallback of `convert_article` in simple-api.py

```python
try:
    loop.run_until_complete(asyncio.wait_for(generate_edge_tts(), timeout=300))
except asyncio.TimeoutError:
    truncated_content = content[:5000] + "... (content truncated due to length)"
    ... synthesize truncated_content -> audio_path ...
word_count = len(content.split())
estimated_read_time = word_count // 200
result = {'success': True, ..., 'wordCount': word_count, ...}
```
-/

/-- `len(s.split())` — count of maximal whitespace-free runs; the flag
records whether the previous character was inside a word. -/
def countWordsGo : List Char → Bool → Nat
  | [], _ => 0
  | c :: rest, inWord =>
    if isSpace c then countWordsGo rest false
    else (if inWord then 0 else 1) + countWordsGo rest true

/-- Python `len(content.split())`. -/
def pyWords (l : List Char) : Nat := countWordsGo l false

/-- The fields of the simple-api.py conversion response relevant here,
plus the text that was actually handed to the synthesis engine. -/
structure SimpleConvertResult where
  success : Bool
  synthesizedText : List Char
  wordCount : Nat
  estimatedReadTime : Nat
deriving Repr, DecidableEq

/-- The literal notice appended to the 5000-character prefix on timeout. -/
def truncationNotice : List Char := "... (content truncated due to length)".toList

/-- The synthesis/response tail of `convert_article` in simple-api.py,
parameterised by whether the 300-second `asyncio.wait_for` fired
(`timedOut`), which is decided by the runtime, not the code. -/
def convert_article_simple (content : List Char) (timedOut : Bool) : SimpleConvertResult :=
  let synthText :=
    if timedOut then content.take 5000 ++ truncationNotice else content
  let word_count := pyWords content
  { success := true
    synthesizedText := synthText
    wordCount := word_count
    estimatedReadTime := word_count / 200 }

/-! ## Error classifier — `categorize_error` in enhanced-server.py

The Python method lowercases the message and tests term lists with
`any(term in error_msg_lower for term in [...])` in a fixed if/elif order,
returning a `(kind, user_message, suggestions)` triple; only the kind
component is modelled (messages and suggestions are constant per kind). -/

inductive ErrKind where
  | network_error
  | paywall_error
  | content_error
  | rate_limit_error
  | access_error
  | not_found_error
  | audio_error
  | unknown_error
deriving Repr, DecidableEq

def networkTerms : List (List Char) :=
  ["connection".toList, "timeout".toList, "network".toList, "dns".toList]

def paywallTerms : List (List Char) :=
  ["paywall".toList, "subscription".toList, "premium".toList, "login".toList]

def contentTerms : List (List Char) :=
  ["too short".toList, "no content".toList, "content found".toList]

def rateLimitTerms : List (List Char) :=
  ["rate limit".toList, "too many requests".toList, "429".toList]

def accessTerms : List (List Char) :=
  ["access denied".toList, "forbidden".toList, "403".toList, "blocked".toList]

def notFoundTerms : List (List Char) :=
  ["not found".toList, "404".toList, "does not exist".toList]

def audioTerms : List (List Char) :=
  ["voice".toList, "tts".toList, "audio".toList, "edge-tts".toList]

/-- `categorize_error` from enhanced-server.py (kind component). -/
def categorize_error (error_msg : List Char) : ErrKind :=
  let low := toLowerL error_msg
  if hasAny low networkTerms then .network_error
  else if hasAny low paywallTerms then .paywall_error
  else if hasAny low contentTerms then .content_error
  else if hasAny low rateLimitTerms then .rate_limit_error
  else if hasAny low accessTerms then .access_error
  else if hasAny low notFoundTerms then .not_found_error
  else if hasAny low audioTerms then .audio_error
  else .unknown_error

/-- Spec-side classifier: first match wins over an ordered precedence
table, `unknown_error` when nothing matches. -/
def firstMatch (low : List Char) : List (List (List Char) × ErrKind) → ErrKind
  | [] => .unknown_error
  | (terms, k) :: rest => if hasAny low terms then k else firstMatch low rest

/-- The precedence order stated by the spec: network/timeout →
paywall/subscription → content → rate-limit/429 → access-denied/403 →
not-found/404 → voice/audio/tts. -/
def precedenceTable : List (List (List Char) × ErrKind) :=
  [(networkTerms, .network_error),
   (paywallTerms, .paywall_error),
   (contentTerms, .content_error),
   (rateLimitTerms, .rate_limit_error),
   (accessTerms, .access_error),
   (notFoundTerms, .not_found_error),
   (audioTerms, .audio_error)]

/-! ## Rate limiter — `handle_archive_url` in enhanced-server.py

```python
def handle_archive_url(self, url):
    parsed = urlparse(url)
    domain = parsed.netloc.lower()
    if domain in self.rate_limits:
        last_request = self.rate_limits[domain]
        elapsed = time.time() - last_request
        if 'archive.ph' in domain:   min_delay = 45
        elif 'web.archive.org' in domain: min_delay = 10
        else:                        min_delay = 30
        if elapsed < min_delay:
            time.sleep(min_delay - elapsed)
    self.rate_limits[domain] = time.time()
    return url
```

Wall-clock time is embedded as a rational carried in the state; `sleep(d)`
advances it by `d`, and no other statement advances it, so
`(handle_archive_url st url).1.now` is the completion time of the gate. -/

/-- The tail of the URL after the first `"://"`, if any
(`urlparse` places the network location there for scheme://host/path
URLs, the only shape the servers handle). -/
def afterSchemeSep : List Char → Option (List Char)
  | [] => none
  | ':' :: '/' :: '/' :: rest => some rest
  | _ :: rest => afterSchemeSep rest

/-- `urlparse(url).netloc`: from after `"://"` up to the next
`/`, `?` or `#`; empty when the URL has no `"://"`. -/
def netlocOf (url : List Char) : List Char :=
  match afterSchemeSep url with
  | none => []
  | some rest => rest.takeWhile (fun c => !(c == '/' || c == '?' || c == '#'))

/-- `urlparse(url).netloc.lower()`. -/
def domainOf (url : List Char) : List Char := toLowerL (netlocOf url)

/-- The tiered minimum delays: strict archive.ph 45 s, lenient
web.archive.org 10 s, default 30 s. -/
def minDelayFor (domain : List Char) : ℚ :=
  if containsSub domain ("archive.ph".toList) then 45
  else if containsSub domain ("web.archive.org".toList) then 10
  else 30

/-- The process-wide rate-limit map (`self.rate_limits`, a dict keyed by
domain) plus the wall clock. -/
structure RLState where
  rateLimits : List (List Char × ℚ)
  now : ℚ

/-- Dict lookup `self.rate_limits[domain]` / `domain in self.rate_limits`. -/
def lookupTs : List (List Char × ℚ) → List Char → Option ℚ
  | [], _ => none
  | (d, t) :: rest, k => if d = k then some t else lookupTs rest k

/-- Dict update `self.rate_limits[domain] = v`. -/
def setTs : List (List Char × ℚ) → List Char → ℚ → List (List Char × ℚ)
  | [], k, v => [(k, v)]
  | (d, t) :: rest, k, v => if d = k then (k, v) :: rest else (d, t) :: setTs rest k v

/-- `handle_archive_url` from enhanced-server.py. -/
def handle_archive_url (st : RLState) (url : List Char) : RLState × List Char :=
  let domain := domainOf url
  match lookupTs st.rateLimits domain with
  | some last_request =>
    let elapsed := st.now - last_request
    let min_delay := minDelayFor domain
    let now2 := if elapsed < min_delay then st.now + (min_delay - elapsed) else st.now
    ({ rateLimits := setTs st.rateLimits domain now2, now := now2 }, url)
  | none =>
    ({ rateLimits := setTs st.rateLimits domain st.now, now := st.now }, url)

/-! ## Synthesiser fallback — `generate_audio_edge_tts` in api-server.py

```python
async def generate_audio_edge_tts(text, output_path, voice, speed):
    try:
        text = text.strip()
        ...
        tts = edge_tts.Communicate(text, voice, rate=rate)
        await tts.save(output_path)
    except Exception as e:
        generate_audio_gtts(text, output_path)

def generate_audio_gtts(text, output_path):
    try:
        tts = gTTS(text=text, lang='en', slow=False)
        tts.save(output_path)
    except Exception as e:
        raise
```

Both engines are external collaborators, abstracted as functions from text
to `Except SynthErr Audio`. The second result component logs the texts the
fallback engine was invoked with. A fallback failure re-raises, so it
surfaces as the `.error` of the whole call. -/

structure SynthErr where
  msg : List Char
deriving Repr, DecidableEq

/-- `generate_audio_edge_tts` from api-server.py: audio outcome plus the
fallback invocation log. -/
def generate_audio_edge_tts
    (primary fallback : List Char → Except SynthErr (List Nat))
    (text : List Char) : Except SynthErr (List Nat) × List (List Char) :=
  let t := pyStrip text
  match primary t with
  | .ok audio => (.ok audio, [])
  | .error _ => (fallback t, [t])

/-! ## Persistence non-fatality — `convert_article` in cloud-server.py

```python
try:
    ... synthesize -> audio_data ...
    audio_base64 = base64.b64encode(audio_data).decode('utf-8')
    audio_url = f"data:audio/mpeg;base64,{audio_base64}"
    if supabase and request.save:
        try:
            try:
                supabase.storage.from_('audio-files').upload(...)
                audio_url = supabase.storage.from_('audio-files').get_public_url(...)
            except Exception as storage_error:
                pass  # keep base64 URL
            result = supabase.table('articles').insert(article_data).execute()
            if result.data:
                return ArticleAudio(..., audio_url=article['audio_url'], ...)
        except Exception as e:
            pass  # fall through
    return ArticleAudio(..., audio_url=f"data:audio/mpeg;base64,{audio_base64}", ...)
except Exception as e:
    raise HTTPException(status_code=500, ...)
```

The synthesiser and the persistence gateway are external collaborators,
abstracted as outcome values. `AudioUrl.dataUri bytes` stands for the
`data:audio/mpeg;base64,...` URI embedding those bytes. -/

inductive AudioUrl where
  | dataUri (bytes : List Nat)
  | storageUrl (u : List Char)
deriving Repr, DecidableEq

structure PersistErr where
  msg : List Char
deriving Repr, DecidableEq

/-- Outcomes of the two persistence operations: the object-store upload
(together with its public URL on success) and the metadata-row insert
(`.ok none` models `result.data` empty/falsy). -/
structure PersistEnv where
  storage : Except PersistErr (List Char)
  dbInsert : Except PersistErr (Option Unit)

structure CloudResult where
  audio_url : AudioUrl
  savedRow : Bool
deriving Repr, DecidableEq

structure HttpErr where
  status : Nat
deriving Repr, DecidableEq

/-- `convert_article` from cloud-server.py (outcome-relevant fields). -/
def convert_article_cloud (synthRes : Except SynthErr (List Nat))
    (env : PersistEnv) (hasSupabase save : Bool) :
    Except HttpErr CloudResult :=
  match synthRes with
  | .error _ => .error { status := 500 }
  | .ok audio_data =>
    let base64Url := AudioUrl.dataUri audio_data
    if hasSupabase && save then
      let audio_url :=
        match env.storage with
        | .ok u => AudioUrl.storageUrl u
        | .error _ => base64Url
      match env.dbInsert with
      | .ok (some _) => .ok { audio_url := audio_url, savedRow := true }
      | .ok none => .ok { audio_url := base64Url, savedRow := false }
      | .error _ => .ok { audio_url := base64Url, savedRow := false }
    else
      .ok { audio_url := base64Url, savedRow := false }

theorem consHead_ne_nil (c : Char) (ss : List (List Char)) : consHead c ss ≠ [] := by
  cases ss <;> simp [consHead]

theorem pySplitDot_ne_nil (l : List Char) : pySplitDot l ≠ [] := by
  match l with
  | [] => simp [pySplitDot]
  | [c] => simp [pySplitDot]
  | c1 :: c2 :: rest =>
    rw [pySplitDot]
    split
    · simp
    · exact consHead_ne_nil _ _

theorem joinDotSep_consHead (c : Char) (ss : List (List Char)) :
    joinDotSep (consHead c ss) = c :: joinDotSep ss := by
  match ss with
  | [] => rfl
  | [s] => rfl
  | s :: s2 :: ss2 => simp [consHead, joinDotSep]

theorem joinDotSep_pySplitDot (l : List Char) : joinDotSep (pySplitDot l) = l := by
  match l with
  | [] => rfl
  | [c] => rfl
  | c1 :: c2 :: rest =>
    rw [pySplitDot]
    split
    · rename_i h
      obtain ⟨h1, h2⟩ := h
      obtain ⟨s, ss, hss⟩ : ∃ s ss, pySplitDot rest = s :: ss := by
        cases hr : pySplitDot rest with
        | nil => exact absurd hr (pySplitDot_ne_nil rest)
        | cons s ss => exact ⟨s, ss, rfl⟩
      have ih := joinDotSep_pySplitDot rest
      rw [hss] at ih ⊢
      simp [joinDotSep, h1, h2, ih]
    · have ih := joinDotSep_pySplitDot (c2 :: rest)
      rw [joinDotSep_consHead, ih]

theorem joinTrail_eq_joinDotSep (ss : List (List Char)) (h : ss ≠ []) :
    joinTrail ss = joinDotSep ss ++ '.' :: ' ' :: [] := by
  match ss with
  | [s] => simp [joinTrail, joinDotSep]
  | s :: s2 :: ss2 =>
    have ih := joinTrail_eq_joinDotSep (s2 :: ss2) (by simp)
    have h1 : joinTrail (s :: s2 :: ss2) = s ++ '.' :: ' ' :: joinTrail (s2 :: ss2) := rfl
    rw [h1, ih]
    simp [joinDotSep]

theorem joinTrail_pySplitDot (l : List Char) :
    joinTrail (pySplitDot l) = l ++ '.' :: ' ' :: [] := by
  rw [joinTrail_eq_joinDotSep _ (pySplitDot_ne_nil l), joinDotSep_pySplitDot]

theorem lookupTs_setTs_self (m : List (List Char × ℚ)) (k : List Char) (v : ℚ) :
    lookupTs (setTs m k v) k = some v := by
  induction m with
  | nil => simp [setTs, lookupTs]
  | cons p rest ih =>
    obtain ⟨d, t⟩ := p
    by_cases h : d = k
    · simp [setTs, lookupTs, h]
    · simp [setTs, lookupTs, h, ih]

theorem lookupTs_setTs_other (m : List (List Char × ℚ)) (k : List Char) (v : ℚ)
    (d : List Char) (h : d ≠ k) : lookupTs (setTs m k v) d = lookupTs m d := by
  induction m with
  | nil => simp [setTs, lookupTs, Ne.symm h]
  | cons p rest ih =>
    obtain ⟨d2, t⟩ := p
    by_cases h2 : d2 = k
    · subst h2
      simp [setTs, lookupTs, Ne.symm h]
    · simp only [setTs, if_neg h2]
      by_cases h3 : d2 = d
      · simp [lookupTs, h3]
      · simp [lookupTs, h3, ih]

/-- Reduction of the gate when the domain already has a rate-limit entry. -/
theorem handle_archive_url_found (st : RLState) (url : List Char) (t1 : ℚ)
    (hfound : lookupTs st.rateLimits (domainOf url) = some t1) :
    handle_archive_url st url =
      ({ rateLimits := setTs st.rateLimits (domainOf url)
           (if st.now - t1 < minDelayFor (domainOf url) then
              st.now + (minDelayFor (domainOf url) - (st.now - t1)) else st.now),
         now := if st.now - t1 < minDelayFor (domainOf url) then
              st.now + (minDelayFor (domainOf url) - (st.now - t1)) else st.now }, url) := by
  simp only [handle_archive_url]
  rw [hfound]

/-- C6: with an existing entry `t1` for the URL's domain, a gate starting
less than the tier's minimum delay after `t1` completes exactly at
`t1 + minDelay` (hence no earlier); a gate starting at least the minimum
delay after `t1` completes immediately; and (for requests started after
`t1`) the gate never completes before `t1 + minDelay`.  The strict tier
(`archive.ph`) has minimum delay 45, the lenient tier
(`web.archive.org`) 10, the default 30. -/
theorem handle_archive_url_delay (st : RLState) (url : List Char) (t1 : ℚ)
    (hfound : lookupTs st.rateLimits (domainOf url) = some t1) :
    (st.now - t1 < minDelayFor (domainOf url) →
      (handle_archive_url st url).1.now = t1 + minDelayFor (domainOf url)) ∧
    (minDelayFor (domainOf url) ≤ st.now - t1 →
      (handle_archive_url st url).1.now = st.now) ∧
    (t1 ≤ st.now →
      t1 + minDelayFor (domainOf url) ≤ (handle_archive_url st url).1.now) ∧
    (containsSub (domainOf url) ("archive.ph".toList) = true →
      minDelayFor (domainOf url) = 45) := by
  rw [handle_archive_url_found st url t1 hfound]
  refine ⟨?_, ?_, ?_, ?_⟩
  · intro hlt
    simp only [if_pos hlt]
    ring
  · intro hge
    simp only [if_neg (not_lt.mpr hge)]
  · intro _
    by_cases hlt : st.now - t1 < minDelayFor (domainOf url)
    · simp only [if_pos hlt]
      linarith
    · simp only [if_neg hlt]
      linarith [not_lt.mp hlt]
  · intro hstrict
    simp only [minDelayFor]
    rw [if_pos hstrict]

/-- Witness for C6 at a concrete state: a second request to
`archive.ph` 10 seconds after the first (timestamp 0) completes at 45;
and 45 is indeed the strict-tier minimum delay. -/
theorem handle_archive_url_delay_witness :
    ((10 : ℚ) - 0 < minDelayFor (domainOf ("https://archive.ph/x".toList)) →
      (handle_archive_url ⟨[("archive.ph".toList, 0)], 10⟩
         ("https://archive.ph/x".toList)).1.now =
        0 + minDelayFor (domainOf ("https://archive.ph/x".toList))) ∧
    ((10 : ℚ) - 0 < minDelayFor (domainOf ("https://archive.ph/x".toList))) ∧
    minDelayFor (domainOf ("https://archive.ph/x".toList)) = 45 := by
  have h := handle_archive_url_delay ⟨[("archive.ph".toList, 0)], 10⟩
    ("https://archive.ph/x".toList) 0 (by rfl)
  refine ⟨h.1, ?_, h.2.2.2 (by rfl)⟩
  have h45 : minDelayFor (domainOf ("https://archive.ph/x".toList)) = 45 :=
    h.2.2.2 (by rfl)
  rw [h45]
  norm_num

/-- C7: after the gate completes, the entry for the URL's domain equals
the gate's completion time (whether or not a delay was applied), the URL
is returned unchanged, and entries for every other domain are untouched.
The gate is a total function: it cannot fail. -/
theorem handle_archive_url_frame (st : RLState) (url : List Char) :
    (handle_archive_url st url).2 = url ∧
    lookupTs (handle_archive_url st url).1.rateLimits (domainOf url) =
      some (handle_archive_url st url).1.now ∧
    ∀ d, d ≠ domainOf url →
      lookupTs (handle_archive_url st url).1.rateLimits d = lookupTs st.rateLimits d := by
  cases hfound : lookupTs st.rateLimits (domainOf url) with
  | some t1 =>
    rw [handle_archive_url_found st url t1 hfound]
    exact ⟨rfl, lookupTs_setTs_self _ _ _, fun d hd => lookupTs_setTs_other _ _ _ _ hd⟩
  | none =>
    have hnone : handle_archive_url st url =
        ({ rateLimits := setTs st.rateLimits (domainOf url) st.now, now := st.now }, url) := by
      simp only [handle_archive_url]
      rw [hfound]
    rw [hnone]
    exact ⟨rfl, lookupTs_setTs_self _ _ _, fun d hd => lookupTs_setTs_other _ _ _ _ hd⟩

/-- Witness for C7 at a concrete state: gating `https://archive.ph/x`
records the completion time under `archive.ph` and leaves the entry for
`example.com` unchanged. -/
theorem handle_archive_url_frame_witness :
    (handle_archive_url ⟨[("example.com".toList, 3)], 10⟩
       ("https://archive.ph/x".toList)).2 = "https://archive.ph/x".toList ∧
    lookupTs (handle_archive_url ⟨[("example.com".toList, 3)], 10⟩
       ("https://archive.ph/x".toList)).1.rateLimits
       (domainOf ("https://archive.ph/x".toList)) =
      some (handle_archive_url ⟨[("example.com".toList, 3)], 10⟩
       ("https://archive.ph/x".toList)).1.now ∧
    lookupTs (handle_archive_url ⟨[("example.com".toList, 3)], 10⟩
       ("https://archive.ph/x".toList)).1.rateLimits ("example.com".toList) =
      lookupTs [("example.com".toList, 3)] ("example.com".toList) := by
  have h := handle_archive_url_frame ⟨[("example.com".toList, 3)], 10⟩
    ("https://archive.ph/x".toList)
  exact ⟨h.1, h.2.1, h.2.2 ("example.com".toList) (by decide)⟩

/-- C5: the classifier agrees everywhere with first-match evaluation of
the ordered precedence table (network → paywall → content → rate-limit →
access → not-found → audio), matching case-insensitively by substring;
and whenever no term list matches, it returns `unknown_error`.  Totality
and uniqueness are immediate: `categorize_error` is a function into the
eight-element `ErrKind`, and first-match makes a string matching the
terms of two kinds classify as the earlier one. -/
theorem categorize_error_precedence (msg : List Char) :
    categorize_error msg = firstMatch (toLowerL msg) precedenceTable ∧
    (hasAny (toLowerL msg) networkTerms = false →
     hasAny (toLowerL msg) paywallTerms = false →
     hasAny (toLowerL msg) contentTerms = false →
     hasAny (toLowerL msg) rateLimitTerms = false →
     hasAny (toLowerL msg) accessTerms = false →
     hasAny (toLowerL msg) notFoundTerms = false →
     hasAny (toLowerL msg) audioTerms = false →
     categorize_error msg = ErrKind.unknown_error) := by
  constructor
  · rfl
  · intro h1 h2 h3 h4 h5 h6 h7
    simp [categorize_error, h1, h2, h3, h4, h5, h6, h7]

/-- Witness for C5: a message matching no pattern is `unknown_error`,
and the table agreement holds at it. -/
theorem categorize_error_precedence_witness :
    categorize_error ("zzz".toList) =
      firstMatch (toLowerL ("zzz".toList)) precedenceTable ∧
    categorize_error ("zzz".toList) = ErrKind.unknown_error := by
  have h := categorize_error_precedence ("zzz".toList)
  exact ⟨h.1, h.2 (by decide) (by decide) (by decide) (by decide)
    (by decide) (by decide) (by decide)⟩

/-- C8: when the primary engine fails on the (stripped) segment text, the
fallback engine is invoked exactly once, with exactly the text the
primary received, and the call's outcome is the fallback's outcome — so a
fallback failure propagates as a terminal failure, with no retry. -/
theorem generate_audio_edge_tts_fallback_once
    (primary fallback : List Char → Except SynthErr (List Nat))
    (text : List Char) (e : SynthErr)
    (hfail : primary (pyStrip text) = .error e) :
    (generate_audio_edge_tts primary fallback text).2 = [pyStrip text] ∧
    (generate_audio_edge_tts primary fallback text).1 = fallback (pyStrip text) := by
  simp only [generate_audio_edge_tts]
  rw [hfail]
  exact ⟨rfl, rfl⟩

/-- Witness for C8 with concrete always-failing engines: the fallback is
invoked once on the stripped text, and its error is the call's result. -/
theorem generate_audio_edge_tts_fallback_once_witness :
    (generate_audio_edge_tts
        (fun _ => Except.error ⟨"edge-tts down".toList⟩)
        (fun _ => Except.error ⟨"gtts down".toList⟩)
        (" hi ".toList)).2 = [pyStrip (" hi ".toList)] ∧
    (generate_audio_edge_tts
        (fun _ => Except.error ⟨"edge-tts down".toList⟩)
        (fun _ => Except.error ⟨"gtts down".toList⟩)
        (" hi ".toList)).1 = Except.error ⟨"gtts down".toList⟩ :=
  generate_audio_edge_tts_fallback_once
    (fun _ => Except.error ⟨"edge-tts down".toList⟩)
    (fun _ => Except.error ⟨"gtts down".toList⟩)
    (" hi ".toList) ⟨"edge-tts down".toList⟩ rfl

/-- C9: once synthesis has succeeded, the conversion returns a success
for every persistence outcome; and whenever the object-store upload or
the metadata-row insert fails (or the insert returns no rows), the
success carries the locally retrievable base64 data-URI artifact. -/
theorem convert_article_cloud_persistence_nonfatal
    (env : PersistEnv) (hasSupabase save : Bool) (audio : List Nat) :
    (∃ r, convert_article_cloud (.ok audio) env hasSupabase save = .ok r) ∧
    (∀ p, env.dbInsert = .error p →
      convert_article_cloud (.ok audio) env hasSupabase save =
        .ok { audio_url := .dataUri audio, savedRow := false }) ∧
    (env.dbInsert = .ok none →
      convert_article_cloud (.ok audio) env hasSupabase save =
        .ok { audio_url := .dataUri audio, savedRow := false }) ∧
    (∀ p, env.storage = .error p →
      ∃ r, convert_article_cloud (.ok audio) env hasSupabase save = .ok r ∧
        r.audio_url = .dataUri audio) := by
  by_cases hgate : (hasSupabase && save) = true
  · refine ⟨?_, ?_, ?_, ?_⟩
    · rcases hst : env.storage with p | u <;>
        rcases hdb : env.dbInsert with q | _ | _
      · exact ⟨{ audio_url := .dataUri audio, savedRow := false },
          by simp only [convert_article_cloud, hgate, if_true, hst, hdb]⟩
      · exact ⟨{ audio_url := .dataUri audio, savedRow := false },
          by simp only [convert_article_cloud, hgate, if_true, hst, hdb]⟩
      · exact ⟨{ audio_url := .dataUri audio, savedRow := true },
          by simp only [convert_article_cloud, hgate, if_true, hst, hdb]⟩
      · exact ⟨{ audio_url := .dataUri audio, savedRow := false },
          by simp only [convert_article_cloud, hgate, if_true, hst, hdb]⟩
      · exact ⟨{ audio_url := .dataUri audio, savedRow := false },
          by simp only [convert_article_cloud, hgate, if_true, hst, hdb]⟩
      · exact ⟨{ audio_url := .storageUrl u, savedRow := true },
          by simp only [convert_article_cloud, hgate, if_true, hst, hdb]⟩
    · intro q hdb
      rcases hst : env.storage with p | u <;>
        simp only [convert_article_cloud, hgate, if_true, hst, hdb]
    · intro hdb
      rcases hst : env.storage with p | u <;>
        simp only [convert_article_cloud, hgate, if_true, hst, hdb]
    · intro p hst
      rcases hdb : env.dbInsert with q | _ | _
      · exact ⟨{ audio_url := .dataUri audio, savedRow := false },
          by simp only [convert_article_cloud, hgate, if_true, hst, hdb], rfl⟩
      · exact ⟨{ audio_url := .dataUri audio, savedRow := false },
          by simp only [convert_article_cloud, hgate, if_true, hst, hdb], rfl⟩
      · exact ⟨{ audio_url := .dataUri audio, savedRow := true },
          by simp only [convert_article_cloud, hgate, if_true, hst, hdb], rfl⟩
  · have hgate2 : (hasSupabase && save) = false := by
      cases h : (hasSupabase && save)
      · rfl
      · exact absurd h hgate
    have hred : convert_article_cloud (.ok audio) env hasSupabase save =
        .ok { audio_url := .dataUri audio, savedRow := false } := by
      simp only [convert_article_cloud, hgate2, Bool.false_eq_true, if_false]
    exact ⟨⟨_, hred⟩, fun p _ => hred, fun _ => hred, fun p _ => ⟨_, hred, rfl⟩⟩

/-- Witness for C9: with both the upload and the insert failing, the
conversion still succeeds and embeds the audio as a base64 data URI. -/
theorem convert_article_cloud_persistence_nonfatal_witness :
    convert_article_cloud (.ok [1, 2, 3])
        ⟨.error ⟨"bucket missing".toList⟩, .error ⟨"insert failed".toList⟩⟩
        true true =
      .ok { audio_url := .dataUri [1, 2, 3], savedRow := false } :=
  (convert_article_cloud_persistence_nonfatal
      ⟨.error ⟨"bucket missing".toList⟩, .error ⟨"insert failed".toList⟩⟩
      true true [1, 2, 3]).2.1 ⟨"insert failed".toList⟩ rfl

/-- C10: when the 300-second synthesis timeout fires, the conversion
still reports success; the synthesized text is exactly the first 5000
characters of the content followed by the literal truncation notice; and
the reported word count is that of the full, untruncated content. -/
theorem convert_article_simple_timeout_fallback (content : List Char) :
    (convert_article_simple content true).success = true ∧
    (convert_article_simple content true).synthesizedText =
      content.take 5000 ++ truncationNotice ∧
    (convert_article_simple content true).wordCount = pyWords content ∧
    (convert_article_simple content false).synthesizedText = content :=
  ⟨rfl, rfl, rfl, rfl⟩

/-- C1: for long content the synthesiser is indeed invoked once per
segment in order, but the final artifact is exactly the first segment's
audio — an element of the per-segment audio list — so its byte size
cannot be strictly greater than that of every single segment, contrary
to the end-to-end scenario.  (The code moves `all_audio[0]` to the output
path and deletes the rest; spec §9 flags this as an unintended
data-loss regression.) -/
theorem generate_edge_tts_first_chunk_only
    (synth : List Char → List Nat) (content : List Char)
    (hlong : 10000 < content.length) :
    (generate_edge_tts synth content).2 = (chunk_text content 8000).map synth ∧
    (generate_edge_tts synth content).1 = ((chunk_text content 8000).map synth).head? ∧
    ∀ a, (generate_edge_tts synth content).1 = some a →
      a ∈ (generate_edge_tts synth content).2 ∧
      ¬ (∀ b ∈ (generate_edge_tts synth content).2, b.length < a.length) := by
  have hred : generate_edge_tts synth content =
      (((chunk_text content 8000).map synth).head?, (chunk_text content 8000).map synth) := by
    simp only [generate_edge_tts, if_pos hlong]
  rw [hred]
  refine ⟨rfl, rfl, ?_⟩
  intro a ha
  simp only at ha
  have hmem : a ∈ (chunk_text content 8000).map synth := by
    cases hl : (chunk_text content 8000).map synth with
    | nil => rw [hl] at ha; simp at ha
    | cons x xs =>
      rw [hl] at ha
      simp only [List.head?] at ha
      rw [List.mem_cons]
      exact Or.inl (Option.some.inj ha).symm
  refine ⟨hmem, fun hall => ?_⟩
  exact absurd (hall a hmem) (lt_irrefl _)

/-- Witness for C1's theorem at a content of 10001 characters. -/
theorem generate_edge_tts_first_chunk_only_witness :
    10000 < (List.replicate 10001 'a').length ∧
    (generate_edge_tts (fun t => t.map Char.toNat) (List.replicate 10001 'a')).2 =
      (chunk_text (List.replicate 10001 'a') 8000).map (fun t => t.map Char.toNat) ∧
    (generate_edge_tts (fun t => t.map Char.toNat) (List.replicate 10001 'a')).1 =
      ((chunk_text (List.replicate 10001 'a') 8000).map (fun t => t.map Char.toNat)).head? := by
  have hlen : 10000 < (List.replicate 10001 'a').length := by
    rw [List.length_replicate]
    norm_num
  have h := generate_edge_tts_first_chunk_only (fun t => t.map Char.toNat)
    (List.replicate 10001 'a') hlen
  exact ⟨hlen, h.1, h.2.1⟩

/-- Counterexample to C2 as stated: `"hi"` is no longer than the maximum
8000, yet `chunk_text` returns `["hi."]`, not `["hi"]` — a period is
appended and the text is not returned unchanged. -/
theorem chunk_text_small_not_identity :
    ("hi".toList).length ≤ 8000 ∧
    chunk_text ("hi".toList) 8000 ≠ ["hi".toList] := by decide

/-- Counterexample to C3 as stated: on `"a. b"` with maximum 4 the
segmenter splits into two segments whose concatenation — even ignoring
all whitespace — carries an extra period the original text lacks, so the
original is not reproduced exactly. -/
theorem chunk_text_concat_adds_period :
    1 < (chunk_text ("a. b".toList) 4).length ∧
    removeWs (chunk_text ("a. b".toList) 4).flatten ≠ removeWs ("a. b".toList) := by decide

/-- Counterexample to C4 as stated: for `"ab"` with maximum 2, every
sentence of the split has length at most 2 (none is longer than the
maximum), yet the emitted segment `"ab."` has length 3 > 2. -/
theorem chunk_text_oversize_boundary :
    (∀ s ∈ pySplitDot ("ab".toList), s.length ≤ 2) ∧
    ∃ c ∈ chunk_text ("ab".toList) 2, 2 < c.length := by decide

theorem chunkGo_all_fits (maxSize : Nat) :
    ∀ (ss : List (List Char)) (cur : List Char) (chunks : List (List Char)),
      cur ≠ [] → (cur ++ joinTrail ss).length ≤ maxSize →
      chunkGo maxSize ss cur chunks = chunks ++ [pyStrip (cur ++ joinTrail ss)]
  | [], cur, chunks, hne, _ => by
    have : cur.isEmpty = false := by
      cases cur with
      | nil => exact absurd rfl hne
      | cons c cs => rfl
    simp [chunkGo, this, joinTrail]
  | s :: rest, cur, chunks, hne, hfit => by
    have hlen : (cur ++ s ++ '.' :: ' ' :: []).length ≤ maxSize := by
      simp only [joinTrail, List.length_append, List.length_cons, List.length_nil] at hfit ⊢
      omega
    rw [chunkGo, if_pos hlen]
    have hrec := chunkGo_all_fits maxSize rest (cur ++ s ++ '.' :: ' ' :: []) chunks
      (by simp)
      (by simp only [joinTrail, List.length_append, List.length_cons, List.length_nil] at hfit ⊢
          omega)
    rw [hrec]
    have : cur ++ s ++ '.' :: ' ' :: [] ++ joinTrail rest = cur ++ joinTrail (s :: rest) := by
      simp [joinTrail]
    rw [List.append_assoc, List.append_assoc] at this ⊢
    rw [this]

/-- C2 amended: whenever `len(text) + 2 ≤ maxSize` (so the text plus the
re-appended `'. '` separator fits), the segmenter returns exactly one
segment — but that segment is `(text + '. ').strip()`, i.e. the text with
a period appended and surrounding whitespace stripped, not the text
unchanged; and for `maxSize ∈ {len(text), len(text)+1}` the result can
even have several segments (see the counterexample). -/
theorem chunk_text_single_segment (text : List Char) (maxSize : Nat)
    (h : text.length + 2 ≤ maxSize) :
    chunk_text text maxSize = [pyStrip (text ++ '.' :: ' ' :: [])] := by
  unfold chunk_text
  obtain ⟨s, rest, hsplit⟩ : ∃ s rest, pySplitDot text = s :: rest := by
    cases hr : pySplitDot text with
    | nil => exact absurd hr (pySplitDot_ne_nil text)
    | cons s ss => exact ⟨s, ss, rfl⟩
  have htrail : joinTrail (s :: rest) = text ++ '.' :: ' ' :: [] := by
    rw [← hsplit, joinTrail_pySplitDot]
  have htot : (joinTrail (s :: rest)).length ≤ maxSize := by
    rw [htrail]
    simp only [List.length_append, List.length_cons, List.length_nil]
    omega
  rw [hsplit, chunkGo]
  have hguard : (([] : List Char) ++ s ++ '.' :: ' ' :: []).length ≤ maxSize := by
    simp only [joinTrail, List.length_append, List.length_cons, List.length_nil] at htot ⊢
    omega
  rw [if_pos hguard]
  have hrec := chunkGo_all_fits maxSize rest (([] : List Char) ++ s ++ '.' :: ' ' :: []) []
    (by simp)
    (by simp only [joinTrail, List.length_append, List.length_cons, List.length_nil] at htot ⊢
        omega)
  rw [hrec, ← htrail]
  simp [joinTrail]

/-- Witness for C2's amended theorem: `"hi"` with maximum 8000 yields one
single segment, the strip of `"hi"` plus `". "`, i.e. `"hi."`. -/
theorem chunk_text_single_segment_witness :
    ("hi".toList).length + 2 ≤ 8000 ∧
    chunk_text ("hi".toList) 8000 = [pyStrip ("hi".toList ++ '.' :: ' ' :: [])] :=
  ⟨by decide, chunk_text_single_segment ("hi".toList) 8000 (by decide)⟩

theorem removeWs_append (a b : List Char) :
    removeWs (a ++ b) = removeWs a ++ removeWs b := by
  simp [removeWs, List.filter_append]

theorem removeWs_dropWhile (l : List Char) :
    removeWs (l.dropWhile isSpace) = removeWs l := by
  induction l with
  | nil => rfl
  | cons c cs ih =>
    by_cases h : isSpace c
    · have hd : (c :: cs).dropWhile isSpace = cs.dropWhile isSpace := by
        simp [List.dropWhile, h]
      rw [hd, ih]
      simp [removeWs, List.filter_cons, h]
    · simp [List.dropWhile, h]

theorem removeWs_reverse (l : List Char) :
    removeWs l.reverse = (removeWs l).reverse := by
  simp [removeWs, List.filter_reverse]

theorem removeWs_pyStrip (l : List Char) : removeWs (pyStrip l) = removeWs l := by
  unfold pyStrip
  rw [removeWs_reverse, removeWs_dropWhile, removeWs_reverse, removeWs_dropWhile,
    List.reverse_reverse]

theorem chunkGo_removeWs (maxSize : Nat) :
    ∀ (ss : List (List Char)) (cur : List Char) (chunks : List (List Char)),
      removeWs (chunkGo maxSize ss cur chunks).flatten =
        removeWs chunks.flatten ++ removeWs cur ++ removeWs (joinTrail ss)
  | [], cur, chunks => by
    cases cur with
    | nil => simp [chunkGo, joinTrail, removeWs]
    | cons c cs =>
      simp only [chunkGo, List.isEmpty_cons, if_false, Bool.false_eq_true]
      rw [List.flatten_append]
      simp only [List.flatten, List.append_nil]
      rw [removeWs_append, removeWs_pyStrip]
      simp [joinTrail, removeWs]
  | s :: rest, cur, chunks => by
    rw [chunkGo]
    by_cases hg : (cur ++ s ++ '.' :: ' ' :: []).length ≤ maxSize
    · rw [if_pos hg, chunkGo_removeWs maxSize rest _ chunks]
      have h1 : joinTrail (s :: rest) = s ++ '.' :: ' ' :: [] ++ joinTrail rest := by
        simp [joinTrail]
      rw [h1, removeWs_append, removeWs_append, removeWs_append, removeWs_append]
      simp [List.append_assoc]
    · rw [if_neg hg, chunkGo_removeWs maxSize rest _ _]
      have h1 : joinTrail (s :: rest) = s ++ '.' :: ' ' :: [] ++ joinTrail rest := by
        simp [joinTrail]
      cases cur with
      | nil =>
        simp only [List.isEmpty_nil, if_true]
        rw [h1, removeWs_append, removeWs_append, removeWs_append]
        simp [removeWs, List.append_assoc]
      | cons c cs =>
        simp only [List.isEmpty_cons, if_false, Bool.false_eq_true]
        rw [List.flatten_append]
        simp only [List.flatten, List.append_nil]
        rw [h1, removeWs_append, removeWs_append, removeWs_append, removeWs_append,
          removeWs_pyStrip]
        simp [List.append_assoc]

/-- C3 amended: for every text and maximum, concatenating all returned
segments reproduces the original text up to whitespace **plus exactly one
appended period**: with all whitespace removed from both sides, the
concatenation equals the original text followed by `'.'`.  No character
of the original is lost, but the trailing period is introduced, so the
reproduction claimed by the spec is not exact (see the counterexample). -/
theorem chunk_text_concat_removeWs (text : List Char) (maxSize : Nat) :
    removeWs (chunk_text text maxSize).flatten = removeWs text ++ ['.'] := by
  unfold chunk_text
  have h0 : removeWs (List.flatten ([] : List (List Char))) = [] := rfl
  have h1 : removeWs ([] : List Char) = [] := rfl
  have h2 : removeWs ('.' :: ' ' :: []) = ['.'] := by decide
  rw [chunkGo_removeWs, joinTrail_pySplitDot, removeWs_append, h0, h1, h2]
  simp

theorem dropWhile_length_le (p : Char → Bool) (l : List Char) :
    (l.dropWhile p).length ≤ l.length := by
  induction l with
  | nil => simp
  | cons c cs ih =>
    by_cases h : p c
    · simp only [List.dropWhile, h]
      exact Nat.le_succ_of_le ih
    · simp [List.dropWhile, h]

theorem pyStrip_length_le (l : List Char) : (pyStrip l).length ≤ l.length := by
  unfold pyStrip
  rw [List.length_reverse]
  calc ((l.dropWhile isSpace).reverse.dropWhile isSpace).length
      ≤ (l.dropWhile isSpace).reverse.length := dropWhile_length_le _ _
    _ = (l.dropWhile isSpace).length := List.length_reverse _
    _ ≤ l.length := dropWhile_length_le _ _

theorem chunkGo_bound (maxSize : Nat) (ss0 : List (List Char)) :
    ∀ (ss : List (List Char)) (cur : List Char) (chunks : List (List Char)),
      (∀ s ∈ ss, s ∈ ss0) →
      (cur.length ≤ maxSize ∨
        ∃ s ∈ ss0, maxSize < s.length + 2 ∧ cur = s ++ '.' :: ' ' :: []) →
      (∀ c ∈ chunks, c.length ≤ maxSize ∨
        ∃ s ∈ ss0, maxSize < s.length + 2 ∧ c = pyStrip (s ++ '.' :: ' ' :: [])) →
      ∀ c ∈ chunkGo maxSize ss cur chunks,
        c.length ≤ maxSize ∨
        ∃ s ∈ ss0, maxSize < s.length + 2 ∧ c = pyStrip (s ++ '.' :: ' ' :: [])
  | [], cur, chunks, _, hcur, hchunks => by
    intro c hc
    rw [chunkGo] at hc
    split at hc
    · exact hchunks c hc
    · rw [List.mem_append] at hc
      rcases hc with hc | hc
      · exact hchunks c hc
      · rw [List.mem_singleton] at hc
        subst hc
        rcases hcur with hle | ⟨s, hs, hbig, hcur⟩
        · exact Or.inl (le_trans (pyStrip_length_le cur) hle)
        · exact Or.inr ⟨s, hs, hbig, by rw [hcur]⟩
  | s :: rest, cur, chunks, hss, hcur, hchunks => by
    intro c hc
    rw [chunkGo] at hc
    split at hc
    · rename_i hg
      exact chunkGo_bound maxSize ss0 rest _ chunks
        (fun x hx => hss x (List.mem_cons_of_mem s hx))
        (Or.inl hg) hchunks c hc
    · rename_i hg
      have hsmem : s ∈ ss0 := hss s (List.mem_cons_self s rest)
      have hcurI : (s ++ '.' :: ' ' :: []).length ≤ maxSize ∨
          ∃ t ∈ ss0, maxSize < t.length + 2 ∧
            s ++ '.' :: ' ' :: [] = t ++ '.' :: ' ' :: [] := by
        by_cases hfit : (s ++ '.' :: ' ' :: []).length ≤ maxSize
        · exact Or.inl hfit
        · refine Or.inr ⟨s, hsmem, ?_, rfl⟩
          simp only [List.length_append, List.length_cons, List.length_nil] at hfit
          omega
      have hchunks2 : ∀ x ∈ (if cur.isEmpty then chunks else chunks ++ [pyStrip cur]),
          x.length ≤ maxSize ∨
          ∃ t ∈ ss0, maxSize < t.length + 2 ∧ x = pyStrip (t ++ '.' :: ' ' :: []) := by
        intro x hx
        split at hx
        · exact hchunks x hx
        · rw [List.mem_append] at hx
          rcases hx with hx | hx
          · exact hchunks x hx
          · rw [List.mem_singleton] at hx
            subst hx
            rcases hcur with hle | ⟨t, ht, hbig, hcureq⟩
            · exact Or.inl (le_trans (pyStrip_length_le cur) hle)
            · exact Or.inr ⟨t, ht, hbig, by rw [hcureq]⟩
      exact chunkGo_bound maxSize ss0 rest _ _
        (fun x hx => hss x (List.mem_cons_of_mem s hx)) hcurI hchunks2 c hc

/-- C4 amended: every returned segment has length at most `maxSize`
**except** segments arising from a single sentence `s` whose length plus
the two-character `'. '` separator exceeds `maxSize` (so in particular
any sentence longer than `maxSize`, but also sentences of length
`maxSize-1` or `maxSize`); such a sentence is emitted whole as the
segment `(s + '. ').strip()` — of length up to `len(s)+1`, possibly one
or two characters above `maxSize` — never truncated or split mid-word. -/
theorem chunk_text_segment_bound (text : List Char) (maxSize : Nat)
    (c : List Char) (hc : c ∈ chunk_text text maxSize) :
    c.length ≤ maxSize ∨
    ∃ s ∈ pySplitDot text, maxSize < s.length + 2 ∧
      c = pyStrip (s ++ '.' :: ' ' :: []) := by
  refine chunkGo_bound maxSize (pySplitDot text) (pySplitDot text) [] []
    (fun x hx => hx) (Or.inl ?_) (by intro x hx; simp at hx) c hc
  simp

/-- Witness for C4's amended theorem: the single segment produced for
`"hi"` under maximum 8000 satisfies the bound disjunction. -/
theorem chunk_text_segment_bound_witness :
    ("hi.".toList) ∈ chunk_text ("hi".toList) 8000 ∧
    (("hi.".toList).length ≤ 8000 ∨
      ∃ s ∈ pySplitDot ("hi".toList), 8000 < s.length + 2 ∧
        "hi.".toList = pyStrip (s ++ '.' :: ' ' :: [])) :=
  ⟨by decide, chunk_text_segment_bound ("hi".toList) 8000 ("hi.".toList) (by decide)⟩
